import Mathlib

/-!
# Marketing Mavericks Agent — formal model and verification

This file gives a shallow embedding, in Lean 4, of the core of the
Marketing-Mavericks-Agent repository:

* the chat endpoint's input sanitization and validation
  (`src/server/index.ts`, `sanitizeInput` and the `/api/chat` handler),
* the brand-context session store (`src/server/brandContext.ts`),
* the endpoint's brand-context resolution branch,
* the content generator's retry loop (`src/server/openai.ts`,
  `generateContent`),
* the browser client's retry loop (`src/client/api/chatClient.ts`,
  `ChatClient.sendMessage`),

and proves (or refutes) the specification claims about them.

JavaScript strings are modelled as `List Char`; JavaScript values that may
be `undefined` are modelled with `Option`; JavaScript truthiness of strings
(`""` is falsy) and of object fields is modelled explicitly where the
source relies on it.
-/

namespace MarketingMavericks

/-! ## JavaScript string primitives

`isJsWhitespace` is the character class matched by the ECMAScript `\s`
regular-expression class, which is also exactly the set of characters
removed by `String.prototype.trim` (WhiteSpace ∪ LineTerminator). -/

def isJsWhitespace (c : Char) : Bool :=
  let n := c.toNat
  n == 9 || n == 10 || n == 11 || n == 12 || n == 13 || n == 32 ||
  n == 0xa0 || n == 0x1680 || decide (0x2000 ≤ n ∧ n ≤ 0x200a) ||
  n == 0x2028 || n == 0x2029 || n == 0x202f || n == 0x205f ||
  n == 0x3000 || n == 0xfeff

/-- The NUL character (`\0` in the source's regex). -/
def nullChar : Char := Char.ofNat 0

/-- `input.replace(/\0/g, ' ')`: replace every null byte with a space. -/
def replaceNullChars (l : List Char) : List Char :=
  l.map (fun c => if c = nullChar then ' ' else c)

/-- Leading-whitespace removal (the front half of `String.prototype.trim`). -/
def trimStart (l : List Char) : List Char :=
  l.dropWhile isJsWhitespace

/-- Trailing-whitespace removal (the back half of `String.prototype.trim`). -/
def trimEnd (l : List Char) : List Char :=
  (l.reverse.dropWhile isJsWhitespace).reverse

/-- `String.prototype.trim`: drop leading and trailing JS whitespace. -/
def jsTrim (l : List Char) : List Char :=
  trimStart (trimEnd l)

/-- One pass of `replace(/\s+/g, ' ')`: `prevWs` records whether we are in
the middle of a whitespace run whose single replacement `' '` has already
been emitted. -/
def collapseAux (prevWs : Bool) : List Char → List Char
  | [] => []
  | c :: t =>
    if isJsWhitespace c then
      if prevWs then collapseAux true t else ' ' :: collapseAux true t
    else
      c :: collapseAux false t

/-- `input.replace(/\s+/g, ' ')`: each maximal run of JS whitespace is
replaced by a single space. -/
def collapseWs (l : List Char) : List Char :=
  collapseAux false l

/-- `sanitizeInput` from `src/server/index.ts`: replace null bytes with
spaces, trim, then collapse whitespace runs to single spaces. -/
def sanitizeInput (l : List Char) : List Char :=
  collapseWs (jsTrim (replaceNullChars l))

/-! ## Spec-side normalization (for claim C4)

The specification describes the sanitized message as "the trimmed,
null-stripped, single-spaced normalization of the original".  We formalize
that normal form independently of the implementation's three sequential
passes: split the null-replaced string into its maximal whitespace-free
words and join them with single spaces. -/

/-- The maximal whitespace-free words of a string, in order: split the
string at its whitespace characters and drop the empty pieces. -/
def specWords (l : List Char) : List (List Char) :=
  (l.splitOnP isJsWhitespace).filter (fun w => !w.isEmpty)

/-- The spec's normal form: replace nulls by spaces, then join the maximal
whitespace-free words with single spaces (no leading or trailing space,
every whitespace run collapsed to one plain space). -/
def specNormalize (l : List Char) : List Char :=
  List.intercalate [' '] (specWords (replaceNullChars l))

/-! ### Facts about whitespace collapsing and trimming (toward claim C4) -/

theorem collapseAux_dropWhile (l : List Char) :
    collapseAux false (l.dropWhile isJsWhitespace) = collapseAux true l := by
  induction l with
  | nil => rfl
  | cons c t ih =>
    cases h : isJsWhitespace c with
    | true =>
      rw [List.dropWhile_cons_of_pos h]
      simp [collapseAux, h, ih]
    | false =>
      rw [List.dropWhile_cons_of_neg (by simp [h])]
      simp [collapseAux, h]

theorem collapseAux_eq_self {w : List Char}
    (hw : ∀ c ∈ w, isJsWhitespace c = false) (b : Bool) :
    collapseAux b w = w := by
  induction w generalizing b with
  | nil => rfl
  | cons c t ih =>
    have hc := hw c (List.mem_cons_self c t)
    simp only [collapseAux, hc]
    simp [ih (fun d hd => hw d (List.mem_cons_of_mem c hd)) false]

theorem trimEnd_nil : trimEnd [] = [] := rfl

theorem trimEnd_eq_nil_iff {l : List Char} :
    trimEnd l = [] ↔ ∀ c ∈ l, isJsWhitespace c = true := by
  unfold trimEnd
  rw [List.reverse_eq_nil_iff, List.dropWhile_eq_nil_iff]
  constructor
  · intro h c hc
    exact h c (List.mem_reverse.mpr hc)
  · intro h c hc
    exact h c (List.mem_reverse.mp hc)

theorem trimEnd_cons (c : Char) (t : List Char) :
    trimEnd (c :: t) =
      if trimEnd t = [] then (if isJsWhitespace c then [] else [c])
      else c :: trimEnd t := by
  unfold trimEnd
  rw [show (c :: t).reverse = t.reverse ++ [c] by simp, List.dropWhile_append]
  by_cases h : t.reverse.dropWhile isJsWhitespace = []
  · simp only [h, List.isEmpty_nil, if_true, List.reverse_nil, if_pos]
    cases hc : isJsWhitespace c <;> simp [List.dropWhile_cons, hc]
  · have he : (t.reverse.dropWhile isJsWhitespace).isEmpty = false := by
      simp [List.isEmpty_iff, h]
    rw [he]
    have h' : (t.reverse.dropWhile isJsWhitespace).reverse ≠ [] := by
      simpa using h
    simp [h']

theorem specWords_nil : specWords [] = [] := rfl

theorem specWords_cons_ws {c : Char} (t : List Char) (hc : isJsWhitespace c = true) :
    specWords (c :: t) = specWords t := by
  unfold specWords
  rw [List.splitOnP_cons, if_pos hc]
  simp [List.filter_cons]

theorem specWords_cons_nonWs {c : Char} {t : List Char}
    (hc : isJsWhitespace c = false) :
    ∃ h tl, List.splitOnP isJsWhitespace t = h :: tl ∧
      specWords (c :: t) = (c :: h) :: tl.filter (fun w => !w.isEmpty) := by
  obtain ⟨h, tl, ht⟩ : ∃ h tl, List.splitOnP isJsWhitespace t = h :: tl := by
    cases hs : List.splitOnP isJsWhitespace t with
    | nil => exact absurd hs (List.splitOnP_ne_nil _ t)
    | cons a b => exact ⟨a, b, rfl⟩
  refine ⟨h, tl, ht, ?_⟩
  unfold specWords
  rw [List.splitOnP_cons, if_neg (by simp [hc]), ht]
  simp [List.filter_cons]

theorem specWords_eq_nil_iff {l : List Char} :
    specWords l = [] ↔ ∀ c ∈ l, isJsWhitespace c = true := by
  induction l with
  | nil => simp [specWords_nil]
  | cons c t ih =>
    cases hc : isJsWhitespace c with
    | true =>
      rw [specWords_cons_ws t hc]
      simp only [List.mem_cons]
      constructor
      · rintro hn d (rfl | hd)
        · exact hc
        · exact ih.mp hn d hd
      · intro hall
        exact ih.mpr (fun d hd => hall d (Or.inr hd))
    | false =>
      obtain ⟨h, tl, -, hspec⟩ := specWords_cons_nonWs (t := t) hc
      rw [hspec]
      simp only [List.cons_ne_nil, false_iff]
      intro hall
      have := hall c (List.mem_cons_self c t)
      simp [hc] at this

theorem intercalate_nil (s : List Char) : List.intercalate s [] = [] := rfl

theorem intercalate_single (s a : List Char) : List.intercalate s [a] = a := by
  simp [List.intercalate]

theorem intercalate_cons₂ (s a b : List Char) (r : List (List Char)) :
    List.intercalate s (a :: b :: r) = a ++ s ++ List.intercalate s (b :: r) := by
  simp [List.intercalate]

theorem intercalate_cons_cons (s : List Char) (c : Char) (h : List Char)
    (r : List (List Char)) :
    List.intercalate s ((c :: h) :: r) = c :: List.intercalate s (h :: r) := by
  cases r with
  | nil => simp [intercalate_single]
  | cons b r' => simp [intercalate_cons₂]

/-- Head-of-string whitespace flag, used to phrase the mid-run collapse
state in the induction below. -/
def headWs : List Char → Bool
  | [] => false
  | c :: _ => isJsWhitespace c

theorem collapseAux_trimEnd (l : List Char) :
    collapseAux true (trimEnd l) = List.intercalate [' '] (specWords l) ∧
    collapseAux false (trimEnd l) =
      (if specWords l = [] then []
       else (if headWs l then [' '] else []) ++
         List.intercalate [' '] (specWords l)) := by
  induction l with
  | nil =>
    simp [trimEnd_nil, specWords_nil, collapseAux, intercalate_nil]
  | cons c t ih =>
    obtain ⟨ihP, ihQ⟩ := ih
    cases hc : isJsWhitespace c with
    | true =>
      rw [specWords_cons_ws t hc]
      by_cases ht : trimEnd t = []
      · have hsw : specWords t = [] :=
          specWords_eq_nil_iff.mpr (trimEnd_eq_nil_iff.mp ht)
        rw [trimEnd_cons, if_pos ht, if_pos hc, hsw]
        simp [collapseAux, intercalate_nil]
      · have hsw : specWords t ≠ [] := fun hs =>
          ht (trimEnd_eq_nil_iff.mpr (specWords_eq_nil_iff.mp hs))
        rw [trimEnd_cons, if_neg ht]
        constructor
        · simpa [collapseAux, hc] using ihP
        · rw [if_neg hsw]
          simp [collapseAux, hc, headWs, ihP]
    | false =>
      obtain ⟨h, tl, hsp, hspec⟩ := specWords_cons_nonWs (t := t) hc
      have hne : specWords (c :: t) ≠ [] := by
        rw [hspec]
        exact List.cons_ne_nil _ _
      have hhw : headWs (c :: t) = false := by simp [headWs, hc]
      suffices hmain : collapseAux false (trimEnd (c :: t)) =
          List.intercalate [' '] (specWords (c :: t)) ∧
          collapseAux true (trimEnd (c :: t)) =
            List.intercalate [' '] (specWords (c :: t)) by
        refine ⟨hmain.2, ?_⟩
        rw [if_neg hne, hhw]
        simpa using hmain.1
      by_cases ht : trimEnd t = []
      · have hall : ∀ d ∈ t, isJsWhitespace d = true := trimEnd_eq_nil_iff.mp ht
        have hsw : specWords t = [] := specWords_eq_nil_iff.mpr hall
        have hfil : (h :: tl).filter (fun w => !w.isEmpty) = [] := by
          have hx : specWords t = (h :: tl).filter (fun w => !w.isEmpty) := by
            unfold specWords
            rw [hsp]
          rw [← hx, hsw]
        have hmem := List.filter_eq_nil_iff.mp hfil
        have hh : h = [] := by
          have := hmem h (List.mem_cons_self h tl)
          simpa [List.isEmpty_iff] using this
        have htl : tl.filter (fun w => !w.isEmpty) = [] :=
          List.filter_eq_nil_iff.mpr
            (fun w hw => hmem w (List.mem_cons_of_mem h hw))
        rw [trimEnd_cons, if_pos ht, if_neg (by simp [hc]), hspec, hh, htl]
        constructor <;> simp [collapseAux, hc, intercalate_single]
      · have hsw : specWords t ≠ [] := fun hs =>
          ht (trimEnd_eq_nil_iff.mpr (specWords_eq_nil_iff.mp hs))
        rw [trimEnd_cons, if_neg ht]
        have hQ : collapseAux false (trimEnd t) =
            (if headWs t then [' '] else []) ++
              List.intercalate [' '] (specWords t) := by
          rw [ihQ, if_neg hsw]
        have hstep : ∀ b : Bool, collapseAux b (c :: trimEnd t) =
            c :: collapseAux false (trimEnd t) := by
          intro b
          simp [collapseAux, hc]
        cases t with
        | nil => exact absurd trimEnd_nil ht
        | cons d t'' =>
          cases hd : isJsWhitespace d with
          | true =>
            have hsp' : List.splitOnP isJsWhitespace (d :: t'') =
                [] :: List.splitOnP isJsWhitespace t'' := by
              rw [List.splitOnP_cons, if_pos hd]
            rw [hsp'] at hsp
            injection hsp with hh0 htl0
            have hswt : specWords (d :: t'') = tl.filter (fun w => !w.isEmpty) := by
              rw [specWords_cons_ws t'' hd]
              unfold specWords
              rw [← htl0]
            obtain ⟨u, us, hus⟩ : ∃ u us, specWords (d :: t'') = u :: us := by
              cases hx : specWords (d :: t'') with
              | nil => exact absurd hx hsw
              | cons u us => exact ⟨u, us, rfl⟩
            have hhw' : headWs (d :: t'') = true := by simp [headWs, hd]
            constructor <;>
            · rw [hstep _, hQ, hhw', hspec, ← hh0, ← hswt, hus]
              simp [intercalate_cons₂]
          | false =>
            obtain ⟨h2, tl2, hsp2, hspec2⟩ := specWords_cons_nonWs (t := t'') hd
            have hsp' : List.splitOnP isJsWhitespace (d :: t'') =
                (d :: h2) :: tl2 := by
              rw [List.splitOnP_cons, if_neg (by simp [hd]), hsp2]
              rfl
            rw [hsp'] at hsp
            injection hsp with hh0 htl0
            have hhw' : headWs (d :: t'') = false := by simp [headWs, hd]
            constructor <;>
            · rw [hstep _, hQ, hhw', hspec, ← hh0, ← htl0, hspec2]
              simp [intercalate_cons_cons]

theorem sanitizeInput_eq_specNormalize (l : List Char) :
    sanitizeInput l = specNormalize l := by
  unfold sanitizeInput specNormalize collapseWs jsTrim trimStart
  rw [collapseAux_dropWhile]
  exact (collapseAux_trimEnd (replaceNullChars l)).1

theorem splitOnP_exists_cons (t : List Char) :
    ∃ h tl, List.splitOnP isJsWhitespace t = h :: tl := by
  cases hs : List.splitOnP isJsWhitespace t with
  | nil => exact absurd hs (List.splitOnP_ne_nil _ t)
  | cons a b => exact ⟨a, b, rfl⟩

theorem splitOnP_words_nonWs (l : List Char) :
    ∀ w ∈ l.splitOnP isJsWhitespace, ∀ c ∈ w, isJsWhitespace c = false := by
  induction l with
  | nil =>
    intro w hw c hc
    simp only [List.splitOnP_nil, List.mem_singleton] at hw
    subst hw
    simp at hc
  | cons a t ih =>
    intro w hw c hc
    rw [List.splitOnP_cons] at hw
    by_cases ha : isJsWhitespace a = true
    · rw [if_pos ha] at hw
      rcases List.mem_cons.mp hw with rfl | hw'
      · simp at hc
      · exact ih w hw' c hc
    · rw [if_neg ha] at hw
      obtain ⟨h, tl, hsp⟩ := splitOnP_exists_cons t
      rw [hsp] at hw
      simp only [List.modifyHead] at hw
      rcases List.mem_cons.mp hw with rfl | hw'
      · rcases List.mem_cons.mp hc with rfl | hc'
        · simpa using ha
        · exact ih h (hsp ▸ List.mem_cons_self h tl) c hc'
      · exact ih w (hsp ▸ List.mem_cons_of_mem h hw') c hc

theorem splitOnP_words_subset (l : List Char) :
    ∀ w ∈ l.splitOnP isJsWhitespace, ∀ c ∈ w, c ∈ l := by
  induction l with
  | nil =>
    intro w hw c hc
    simp only [List.splitOnP_nil, List.mem_singleton] at hw
    subst hw
    simp at hc
  | cons a t ih =>
    intro w hw c hc
    rw [List.splitOnP_cons] at hw
    by_cases ha : isJsWhitespace a = true
    · rw [if_pos ha] at hw
      rcases List.mem_cons.mp hw with rfl | hw'
      · simp at hc
      · exact List.mem_cons_of_mem a (ih w hw' c hc)
    · rw [if_neg ha] at hw
      obtain ⟨h, tl, hsp⟩ := splitOnP_exists_cons t
      rw [hsp] at hw
      simp only [List.modifyHead] at hw
      rcases List.mem_cons.mp hw with rfl | hw'
      · rcases List.mem_cons.mp hc with rfl | hc'
        · exact List.mem_cons_self c t
        · exact List.mem_cons_of_mem a
            (ih h (hsp ▸ List.mem_cons_self h tl) c hc')
      · exact List.mem_cons_of_mem a
          (ih w (hsp ▸ List.mem_cons_of_mem h hw') c hc)

theorem specWords_words {l : List Char} :
    ∀ w ∈ specWords l, w ≠ [] ∧ ∀ c ∈ w, isJsWhitespace c = false := by
  intro w hw
  have hmem := List.mem_filter.mp hw
  constructor
  · have := hmem.2
    simpa [List.isEmpty_iff] using this
  · exact fun c hc => splitOnP_words_nonWs l w hmem.1 c hc

theorem specWords_subset {l : List Char} :
    ∀ w ∈ specWords l, ∀ c ∈ w, c ∈ l := by
  intro w hw
  have hmem := List.mem_filter.mp hw
  exact fun c hc => splitOnP_words_subset l w hmem.1 c hc

theorem replaceNullChars_no_null (l : List Char) :
    ∀ c ∈ replaceNullChars l, c ≠ nullChar := by
  intro c hc
  obtain ⟨a, -, ha⟩ := List.mem_map.mp hc
  by_cases h : a = nullChar
  · rw [if_pos h] at ha
    rw [← ha]
    decide
  · rw [if_neg h] at ha
    rw [← ha]
    exact h

theorem replaceNullChars_eq_self {l : List Char}
    (h : ∀ c ∈ l, c ≠ nullChar) : replaceNullChars l = l := by
  induction l with
  | nil => rfl
  | cons c t ih =>
    show (if c = nullChar then ' ' else c) :: replaceNullChars t = c :: t
    rw [if_neg (h c (List.mem_cons_self c t)),
      ih (fun d hd => h d (List.mem_cons_of_mem c hd))]

theorem intercalate_no_null {L : List (List Char)}
    (h : ∀ w ∈ L, ∀ c ∈ w, c ≠ nullChar) :
    ∀ c ∈ List.intercalate [' '] L, c ≠ nullChar := by
  induction L with
  | nil => simp [intercalate_nil]
  | cons w r ih =>
    cases r with
    | nil =>
      rw [intercalate_single]
      exact fun c hc => h w (List.mem_cons_self w []) c hc
    | cons b r' =>
      rw [intercalate_cons₂]
      intro c hc
      simp only [List.append_assoc, List.mem_append, List.mem_singleton] at hc
      rcases hc with hc | hc | hc
      · exact h w (List.mem_cons_self _ _) c hc
      · rw [hc]
        decide
      · exact ih (fun v hv => h v (List.mem_cons_of_mem w hv)) c hc

theorem specWords_intercalate {L : List (List Char)}
    (h : ∀ w ∈ L, w ≠ [] ∧ ∀ c ∈ w, isJsWhitespace c = false) :
    specWords (List.intercalate [' '] L) = L := by
  induction L with
  | nil =>
    rw [intercalate_nil]
    exact specWords_nil
  | cons w r ih =>
    obtain ⟨hne, hnw⟩ := h w (List.mem_cons_self w r)
    cases r with
    | nil =>
      rw [intercalate_single]
      unfold specWords
      rw [List.splitOnP_eq_single _ _ (fun x hx => by simp [hnw x hx])]
      simp [List.filter_cons, hne]
    | cons b r' =>
      rw [intercalate_cons₂]
      have hstep : specWords (w ++ [' '] ++ List.intercalate [' '] (b :: r')) =
          w :: specWords (List.intercalate [' '] (b :: r')) := by
        unfold specWords
        rw [List.append_assoc, List.singleton_append,
          List.splitOnP_first isJsWhitespace w
            (fun x hx => by simp [hnw x hx]) ' ' (by decide) _]
        rw [List.filter_cons]
        simp [hne]
      rw [hstep, ih (fun v hv => h v (List.mem_cons_of_mem w hv))]

theorem specNormalize_no_null (l : List Char) :
    ∀ c ∈ specNormalize l, c ≠ nullChar := by
  intro c hc
  exact intercalate_no_null
    (fun w hw d hd =>
      replaceNullChars_no_null l d (specWords_subset w hw d hd)) c hc

theorem specNormalize_idempotent (l : List Char) :
    specNormalize (specNormalize l) = specNormalize l := by
  have h1 : replaceNullChars (specNormalize l) = specNormalize l :=
    replaceNullChars_eq_self (specNormalize_no_null l)
  show List.intercalate [' ']
      (specWords (replaceNullChars (specNormalize l))) = specNormalize l
  rw [h1]
  show List.intercalate [' ']
      (specWords (List.intercalate [' '] (specWords (replaceNullChars l)))) =
    specNormalize l
  rw [specWords_intercalate (fun w hw => specWords_words w hw)]
  rfl

/-- Sanity check mirroring the repository's own unit test: null bytes are
replaced and whitespace is normalized. -/
example :
    sanitizeInput ("Test\u0000message\u0000here".data) =
      "Test message here".data := by decide

example :
    sanitizeInput ("  Test    message   with    spaces ".data) =
      "Test message with spaces".data := by decide

/-- **C4.** For every input string, the endpoint's sanitization
(`sanitizeInput`) returns exactly the normalization described by the spec —
replace every null character with a space, trim leading/trailing
whitespace, collapse every whitespace run to a single space (formalized
independently as `specNormalize`, the single-space join of the maximal
whitespace-free words of the null-replaced input) — and sanitization is
idempotent: `sanitizeInput (sanitizeInput m) = sanitizeInput m`. -/
theorem C4_sanitizeInput_normalizes_and_idempotent (m : List Char) :
    sanitizeInput m = specNormalize m ∧
    sanitizeInput (sanitizeInput m) = sanitizeInput m := by
  refine ⟨sanitizeInput_eq_specNormalize m, ?_⟩
  rw [sanitizeInput_eq_specNormalize, sanitizeInput_eq_specNormalize]
  exact specNormalize_idempotent m

/-! ## Content generator (`generateContent`, `src/server/openai.ts`)

The upstream OpenAI call is modelled as a function from the attempt
index to an outcome; the retry loop is a direct transcription of
`for (let attempt = 0; attempt < maxRetries; attempt++) { try ... catch }`.
The loop counter is represented by the pair (`remaining`, `attempt`) with
`remaining = maxRetries - attempt`, so the loop guard
`attempt < maxRetries` is the pattern match on `remaining` and the
function is structurally recursive (hence computable by `decide`). -/

/-- Outcome of one `openai.chat.completions.create` call: the promise
either fulfills with `completion.choices[0]?.message?.content` (`none`
models an absent/null content field) or rejects with an error carrying an
optional HTTP `status` field and a `message` string. -/
inductive Attempt
  | completion (content : Option String)
  | thrown (status : Option Nat) (msg : String)
deriving DecidableEq, Repr

/-- `haystack.includes(needle)` on JavaScript strings. -/
def jsIncludes (hay needle : List Char) : Bool :=
  match hay with
  | [] => needle.isEmpty
  | c :: t => needle.isPrefixOf (c :: t) || jsIncludes t needle

/-- `'status' in error && error.status >= 500`. -/
def statusGe500 : Option Nat → Bool
  | some s => decide (500 ≤ s)
  | none => false

def authFailedMsg : String :=
  "API authentication failed. Please check your OpenAI API key."

def invalidRequestMsg : String :=
  "Invalid request to OpenAI API. Please try rephrasing your message."

def serverUnavailableMsg : String :=
  "OpenAI service is temporarily unavailable. Please try again in a moment."

def networkErrorMsg : String :=
  "Network connection error. Please check your internet connection and try again."

def highDemandMsg : String :=
  "The service is experiencing high demand. Please wait a moment and try again."

def noResponseMsg : String := "No response from OpenAI"

/-- `Unable to generate content: ${lastError?.message || 'Unknown error'}.
Please try again.` — note `||`, so an empty message also falls back. -/
def genericFailureMsg (lastError : Option String) : String :=
  "Unable to generate content: " ++
    (match lastError with
     | some m => if m = "" then "Unknown error" else m
     | none => "Unknown error") ++
    ". Please try again."

/-- The error observed by the `catch` block on one attempt, if any: a
rejected call is caught as-is; a fulfilled call whose content is absent or
falsy (`!response`) throws `Error('No response from OpenAI')`, which the
same `catch` then classifies (it has no `status` field). -/
def caughtError : Attempt → Option (Option Nat × String)
  | .completion (some s) => if s = "" then some (none, noResponseMsg) else none
  | .completion none => some (none, noResponseMsg)
  | .thrown st m => some (st, m)

/-- Failure classes of the `catch` block, in source order. -/
inductive ErrClass
  | rate | auth | invalid | server | network | generic
deriving DecidableEq, Repr

/-- The if-chain of the `catch` block: status 429, status 401, status 400,
status ≥ 500, message containing `fetch` or `network`, anything else. -/
def classify (st : Option Nat) (m : String) : ErrClass :=
  if st = some 429 then .rate
  else if st = some 401 then .auth
  else if st = some 400 then .invalid
  else if statusGe500 st then .server
  else if jsIncludes m.data "fetch".data || jsIncludes m.data "network".data then .network
  else .generic

deriving instance DecidableEq for Except

/-- Result of a `generateContent` run: the returned content or the thrown
error message, the `setTimeout` delays in milliseconds in order, and the
number of upstream calls made. -/
structure GenResult where
  result : Except String String
  delays : List Nat
  calls : Nat
deriving DecidableEq, Repr

/-- The retry loop of `generateContent`.  `remaining` is
`maxRetries - attempt`; `remaining = 0` is the exit of the `for` loop,
where the trailing `isRateLimited` check raises the final error.
`isRateLimited` and `lastError` are the mutable locals of the source. -/
def genLoop (upstream : Nat → Attempt) (maxRetries : Nat) :
    (remaining attempt : Nat) → (isRateLimited : Bool) →
    (lastError : Option String) → GenResult
  | 0, _, isRateLimited, lastError =>
    if isRateLimited then ⟨.error highDemandMsg, [], 0⟩
    else ⟨.error (genericFailureMsg lastError), [], 0⟩
  | remaining + 1, attempt, isRateLimited, lastError =>
    match caughtError (upstream attempt) with
    | none =>
      -- the call fulfilled with truthy content: return it
      match upstream attempt with
      | .completion (some s) => ⟨.ok s, [], 1⟩
      | _ => ⟨.ok "", [], 1⟩  -- impossible: caughtError is none only on truthy content
    | some (st, m) =>
      match classify st m with
      | .rate =>
        -- exponential backoff 2^attempt seconds, then `continue`
        let r := genLoop upstream maxRetries remaining (attempt + 1) true (some m)
        ⟨r.result, 2 ^ attempt * 1000 :: r.delays, r.calls + 1⟩
      | .auth => ⟨.error authFailedMsg, [], 1⟩
      | .invalid => ⟨.error invalidRequestMsg, [], 1⟩
      | .server =>
        if attempt < maxRetries - 1 then
          let r := genLoop upstream maxRetries remaining (attempt + 1) isRateLimited (some m)
          ⟨r.result, 1000 :: r.delays, r.calls + 1⟩
        else ⟨.error serverUnavailableMsg, [], 1⟩
      | .network =>
        if attempt < maxRetries - 1 then
          let r := genLoop upstream maxRetries remaining (attempt + 1) isRateLimited (some m)
          ⟨r.result, 1000 :: r.delays, r.calls + 1⟩
        else ⟨.error networkErrorMsg, [], 1⟩
      | .generic =>
        if attempt < maxRetries - 1 then
          let r := genLoop upstream maxRetries remaining (attempt + 1) isRateLimited (some m)
          ⟨r.result, 1000 :: r.delays, r.calls + 1⟩
        else
          -- no `continue` and no throw: the loop steps once more and exits
          let r := genLoop upstream maxRetries remaining (attempt + 1) isRateLimited (some m)
          ⟨r.result, r.delays, r.calls + 1⟩

/-- `generateContent(userMessage, history, brandContext, maxRetries = 3)`,
abstracted over the upstream call outcomes (prompt construction does not
affect the retry behaviour the claims are about). -/
def generateContent (upstream : Nat → Attempt) (maxRetries : Nat := 3) :
    GenResult :=
  genLoop upstream maxRetries maxRetries 0 false none

example :
    generateContent (fun _ => .completion (some "hi")) = ⟨.ok "hi", [], 1⟩ := by
  decide

example :
    generateContent
      (fun i => if i < 2 then .thrown (some 429) "Rate limit exceeded"
                else .completion (some "ok")) =
      ⟨.ok "ok", [1000, 2000], 3⟩ := by
  decide

/-- Unrolling the retry loop over a run of `k` consecutive 429 failures
followed by a successful call: the loop returns the success content after
backoff delays `2^attempt, 2^(attempt+1), ...` seconds. -/
theorem genLoop_429_run (u : Nat → Attempt) (mr : Nat) (k : Nat) :
    ∀ (remaining attempt : Nat) (isRL : Bool) (le : Option String)
      (c : String),
      k < remaining →
      (∀ i < k, ∃ m, u (attempt + i) = .thrown (some 429) m) →
      u (attempt + k) = .completion (some c) → c ≠ "" →
      genLoop u mr remaining attempt isRL le =
        ⟨.ok c, (List.range k).map (fun i => 2 ^ (attempt + i) * 1000),
          k + 1⟩ := by
  induction k with
  | zero =>
    intro remaining attempt isRL le c hk h429 hsucc hc
    obtain ⟨r, rfl⟩ : ∃ r, remaining = r + 1 := ⟨remaining - 1, by omega⟩
    rw [Nat.add_zero] at hsucc
    simp [genLoop, hsucc, caughtError, hc]
  | succ k ih =>
    intro remaining attempt isRL le c hk h429 hsucc hc
    obtain ⟨r, rfl⟩ : ∃ r, remaining = r + 1 := ⟨remaining - 1, by omega⟩
    obtain ⟨m, hm⟩ := h429 0 (Nat.succ_pos k)
    rw [Nat.add_zero] at hm
    have hstep := ih r (attempt + 1) true (some m) c (by omega)
      (fun i hi => by
        obtain ⟨m', hm'⟩ := h429 (i + 1) (by omega)
        exact ⟨m', by rw [show attempt + 1 + i = attempt + (i + 1) by omega, hm']⟩)
      (by rw [show attempt + 1 + k = attempt + (k + 1) by omega, hsucc]) hc
    have hcls : classify (some 429) m = .rate := by simp [classify]
    simp only [genLoop, hm, caughtError, hcls, hstep]
    have hdel : ((2 : Nat) ^ attempt * 1000) ::
        (List.range k).map (fun i => 2 ^ (attempt + 1 + i) * 1000) =
        (List.range (k + 1)).map (fun i => 2 ^ (attempt + i) * 1000) := by
      rw [List.range_succ_eq_map, List.map_cons, List.map_map]
      simp only [List.cons.injEq]
      constructor
      · simp
      · apply List.map_congr_left
        intro i _
        have h2 : attempt + 1 + i = attempt + (i + 1) := by omega
        simp [Function.comp_apply, h2]
    rw [hdel]

/-- Closed form of the total backoff: `Σ_{i<k} 2^i·1000 = (2^k - 1)·1000`. -/
theorem backoff_sum (k : Nat) :
    ((List.range k).map (fun i => 2 ^ i * 1000)).sum = (2 ^ k - 1) * 1000 := by
  induction k with
  | zero => rfl
  | succ k ih =>
    rw [List.range_succ, List.map_append, List.sum_append, ih]
    simp only [List.map_cons, List.map_nil, List.sum_cons, List.sum_nil]
    have h1 : 1 ≤ 2 ^ k := Nat.one_le_two_pow
    have h2 : 2 ^ (k + 1) = 2 * 2 ^ k := by rw [Nat.pow_succ]; omega
    omega

/-- **C1.**  If the upstream call fails with HTTP 429 on the first `k`
attempts (`k < maxRetries`) and then succeeds with non-empty content `c`,
`generateContent` returns `c`, waiting `2^i` seconds (`2^i * 1000` ms)
after the `i`-th failed attempt, so the delays are exactly
`[2^0, ..., 2^(k-1)]` seconds and their total is `(2^k - 1)` seconds. -/
theorem C1_generate_429_backoff_then_success (u : Nat → Attempt)
    (maxRetries k : Nat) (c : String)
    (hk : k < maxRetries)
    (h429 : ∀ i < k, ∃ m, u i = .thrown (some 429) m)
    (hsucc : u k = .completion (some c)) (hc : c ≠ "") :
    generateContent u maxRetries =
      ⟨.ok c, (List.range k).map (fun i => 2 ^ i * 1000), k + 1⟩ ∧
    (generateContent u maxRetries).delays.sum = (2 ^ k - 1) * 1000 := by
  have h := genLoop_429_run u maxRetries k maxRetries 0 false none c hk
    (fun i hi => by simpa using h429 i hi) (by simpa using hsucc) hc
  rw [generateContent, h]
  refine ⟨by simp, ?_⟩
  simp only [Nat.zero_add]
  exact backoff_sum k

/-- Witness for C1: two 429 responses, then success, with `maxRetries = 3`:
the run returns the content after waiting 1 s and then 2 s. -/
theorem C1_witness :
    (2 < 3) ∧
    generateContent
        (fun i => if i < 2 then .thrown (some 429) "Rate limit exceeded"
                  else .completion (some "ok")) 3 =
      ⟨.ok "ok", (List.range 2).map (fun i => 2 ^ i * 1000), 3⟩ ∧
    (generateContent
        (fun i => if i < 2 then .thrown (some 429) "Rate limit exceeded"
                  else .completion (some "ok")) 3).delays.sum =
      (2 ^ 2 - 1) * 1000 := by
  refine ⟨by decide, ?_⟩
  have h := C1_generate_429_backoff_then_success
    (fun i => if i < 2 then .thrown (some 429) "Rate limit exceeded"
              else .completion (some "ok")) 3 2 "ok"
    (by decide)
    (fun i hi => ⟨"Rate limit exceeded", by
      have : i = 0 ∨ i = 1 := by omega
      rcases this with rfl | rfl <;> rfl⟩)
    (by rfl) (by decide)
  exact h

/-- **C2.**  If the first upstream call rejects with HTTP status 401,
`generateContent` fails immediately with the authentication-failure
message: one upstream call, no retries, and no delay. -/
theorem C2_generate_401_immediate (u : Nat → Attempt) (maxRetries : Nat)
    (m : String) (h0 : 0 < maxRetries)
    (h401 : u 0 = .thrown (some 401) m) :
    generateContent u maxRetries = ⟨.error authFailedMsg, [], 1⟩ := by
  obtain ⟨r, rfl⟩ : ∃ r, maxRetries = r + 1 := ⟨maxRetries - 1, by omega⟩
  have hcls : classify (some 401) m = .auth := by simp [classify]
  simp [generateContent, genLoop, h401, caughtError, hcls]

/-- Witness for C2: a 401 rejection on the first call with the default
budget of 3 attempts fails at once with the authentication message. -/
theorem C2_witness :
    (0 < 3) ∧
    generateContent (fun _ => .thrown (some 401) "Unauthorized") 3 =
      ⟨.error authFailedMsg, [], 1⟩ :=
  ⟨by decide,
    C2_generate_401_immediate (fun _ => .thrown (some 401) "Unauthorized") 3
      "Unauthorized" (by decide) rfl⟩

/-! ## Claim C10: which message is raised on exhaustion -/

/-- The failure class the `catch` block assigns to an attempt's outcome
(`none` when the attempt succeeds with truthy content). -/
def errClassOf (a : Attempt) : Option ErrClass :=
  (caughtError a).map (fun e => classify e.1 e.2)

/-- The caught error's `message`, if the attempt fails. -/
def errMsgOf (a : Attempt) : Option String :=
  (caughtError a).map (fun e => e.2)

/-- Counterexample to C10 as stated: attempt 0 is rate-limited (429), but
attempts 1 and 2 are network failures; the run exhausts the budget of 3
and raises the network-error message, not the "high demand" message, even
though an attempt was rate-limited — because the network branch throws its
own terminal error on the last attempt and never reaches the
`isRateLimited` fall-through. -/
theorem C10_counterexample :
    generateContent
        (fun i => if i = 0 then .thrown (some 429) "Rate limit exceeded"
                  else .thrown none "network unreachable") 3 =
      ⟨.error networkErrorMsg, [1000, 1000], 3⟩ ∧
    networkErrorMsg ≠ highDemandMsg := by
  constructor
  · decide
  · decide

/-- Characterization of the exhaustion path of the retry loop: when every
attempt in `[attempt, maxRetries)` fails and none fails with 401/400, the
final error is decided by the class of the last attempt's failure: a
server (≥500) or network failure on the last attempt throws its own
message; a 429 or unclassified failure on the last attempt falls through
to the `isRateLimited` check. -/
theorem genLoop_exhaust (u : Nat → Attempt) (mr : Nat) :
    ∀ (remaining attempt : Nat) (isRL : Bool) (le : Option String),
      remaining = mr - attempt →
      attempt < mr →
      (∀ i, attempt ≤ i → i < mr →
        errClassOf (u i) ≠ none ∧ errClassOf (u i) ≠ some .auth ∧
          errClassOf (u i) ≠ some .invalid) →
      ((errClassOf (u (mr - 1)) = some .server →
          (genLoop u mr remaining attempt isRL le).result =
            .error serverUnavailableMsg) ∧
       (errClassOf (u (mr - 1)) = some .network →
          (genLoop u mr remaining attempt isRL le).result =
            .error networkErrorMsg) ∧
       ((errClassOf (u (mr - 1)) = some .rate ∨
           errClassOf (u (mr - 1)) = some .generic) →
         ((isRL = true ∨ ∃ i, attempt ≤ i ∧ i < mr ∧
             errClassOf (u i) = some .rate) →
            (genLoop u mr remaining attempt isRL le).result =
              .error highDemandMsg) ∧
         ((isRL = false ∧ ∀ i, attempt ≤ i → i < mr →
             errClassOf (u i) ≠ some .rate) →
            (genLoop u mr remaining attempt isRL le).result =
              .error (genericFailureMsg (errMsgOf (u (mr - 1))))))) := by
  intro remaining
  induction remaining with
  | zero =>
    intro attempt isRL le hinv hlt _
    omega
  | succ r ih =>
    intro attempt isRL le hinv hlt hfail
    obtain ⟨hne, hnauth, hninv⟩ := hfail attempt le_rfl hlt
    obtain ⟨st, m, hca⟩ : ∃ st m, caughtError (u attempt) = some (st, m) := by
      cases hc : caughtError (u attempt) with
      | none => exact absurd (by simp [errClassOf, hc]) hne
      | some p =>
        obtain ⟨st, m⟩ := p
        exact ⟨st, m, rfl⟩
    have hclsOf : errClassOf (u attempt) = some (classify st m) := by
      simp [errClassOf, hca]
    have hmsgOf : errMsgOf (u attempt) = some m := by
      simp [errMsgOf, hca]
    cases hcls : classify st m with
    | auth => exact absurd (by rw [hclsOf, hcls]) hnauth
    | invalid => exact absurd (by rw [hclsOf, hcls]) hninv
    | rate =>
      have hred : (genLoop u mr (r + 1) attempt isRL le).result =
          (genLoop u mr r (attempt + 1) true (some m)).result := by
        simp only [genLoop, hca, hcls]
      by_cases hstop : attempt + 1 < mr
      · have ihs := ih (attempt + 1) true (some m) (by omega) hstop
          (fun i hi hi' => hfail i (by omega) hi')
        refine ⟨fun hs => by rw [hred]; exact ihs.1 hs,
                fun hs => by rw [hred]; exact ihs.2.1 hs, fun hrg => ?_⟩
        constructor
        · intro _
          rw [hred]
          exact (ihs.2.2 hrg).1 (Or.inl rfl)
        · rintro ⟨-, hnone⟩
          exact absurd (by rw [hclsOf, hcls]) (hnone attempt le_rfl hlt)
      · have hlast : attempt = mr - 1 := by omega
        have hr0 : r = 0 := by omega
        have hres : (genLoop u mr (r + 1) attempt isRL le).result =
            .error highDemandMsg := by
          rw [hred, hr0]
          rfl
        have hfinal : errClassOf (u (mr - 1)) = some .rate := by
          rw [← hlast, hclsOf, hcls]
        refine ⟨fun hs => absurd (hfinal.symm.trans hs) (by simp),
                fun hs => absurd (hfinal.symm.trans hs) (by simp), fun _ => ?_⟩
        refine ⟨fun _ => hres, ?_⟩
        rintro ⟨-, hnone⟩
        exact absurd (by rw [hclsOf, hcls]) (hnone attempt le_rfl hlt)
    | server =>
      by_cases hstop : attempt < mr - 1
      · have hred : (genLoop u mr (r + 1) attempt isRL le).result =
            (genLoop u mr r (attempt + 1) isRL (some m)).result := by
          simp only [genLoop, hca, hcls, if_pos hstop]
        have ihs := ih (attempt + 1) isRL (some m) (by omega) (by omega)
          (fun i hi hi' => hfail i (by omega) hi')
        refine ⟨fun hs => by rw [hred]; exact ihs.1 hs,
                fun hs => by rw [hred]; exact ihs.2.1 hs, fun hrg => ?_⟩
        constructor
        · rintro (hb | ⟨i, hi1, hi2, hi3⟩)
          · rw [hred]
            exact (ihs.2.2 hrg).1 (Or.inl hb)
          · have hia : i ≠ attempt := by
              intro hE
              rw [hE, hclsOf, hcls] at hi3
              simp at hi3
            rw [hred]
            exact (ihs.2.2 hrg).1 (Or.inr ⟨i, by omega, hi2, hi3⟩)
        · rintro ⟨hb, hnone⟩
          rw [hred]
          exact (ihs.2.2 hrg).2 ⟨hb, fun i hi hi' => hnone i (by omega) hi'⟩
      · have hlast : attempt = mr - 1 := by omega
        have hres : (genLoop u mr (r + 1) attempt isRL le).result =
            .error serverUnavailableMsg := by
          simp only [genLoop, hca, hcls, if_neg hstop]
        have hfinal : errClassOf (u (mr - 1)) = some .server := by
          rw [← hlast, hclsOf, hcls]
        refine ⟨fun _ => hres,
                fun hs => absurd (hfinal.symm.trans hs) (by simp),
                fun hrg => ?_⟩
        rcases hrg with hs | hs <;>
          exact absurd (hfinal.symm.trans hs) (by simp)
    | network =>
      by_cases hstop : attempt < mr - 1
      · have hred : (genLoop u mr (r + 1) attempt isRL le).result =
            (genLoop u mr r (attempt + 1) isRL (some m)).result := by
          simp only [genLoop, hca, hcls, if_pos hstop]
        have ihs := ih (attempt + 1) isRL (some m) (by omega) (by omega)
          (fun i hi hi' => hfail i (by omega) hi')
        refine ⟨fun hs => by rw [hred]; exact ihs.1 hs,
                fun hs => by rw [hred]; exact ihs.2.1 hs, fun hrg => ?_⟩
        constructor
        · rintro (hb | ⟨i, hi1, hi2, hi3⟩)
          · rw [hred]
            exact (ihs.2.2 hrg).1 (Or.inl hb)
          · have hia : i ≠ attempt := by
              intro hE
              rw [hE, hclsOf, hcls] at hi3
              simp at hi3
            rw [hred]
            exact (ihs.2.2 hrg).1 (Or.inr ⟨i, by omega, hi2, hi3⟩)
        · rintro ⟨hb, hnone⟩
          rw [hred]
          exact (ihs.2.2 hrg).2 ⟨hb, fun i hi hi' => hnone i (by omega) hi'⟩
      · have hlast : attempt = mr - 1 := by omega
        have hres : (genLoop u mr (r + 1) attempt isRL le).result =
            .error networkErrorMsg := by
          simp only [genLoop, hca, hcls, if_neg hstop]
        have hfinal : errClassOf (u (mr - 1)) = some .network := by
          rw [← hlast, hclsOf, hcls]
        refine ⟨fun hs => absurd (hfinal.symm.trans hs) (by simp),
                fun _ => hres, fun hrg => ?_⟩
        rcases hrg with hs | hs <;>
          exact absurd (hfinal.symm.trans hs) (by simp)
    | generic =>
      by_cases hstop : attempt < mr - 1
      · have hred : (genLoop u mr (r + 1) attempt isRL le).result =
            (genLoop u mr r (attempt + 1) isRL (some m)).result := by
          simp only [genLoop, hca, hcls, if_pos hstop]
        have ihs := ih (attempt + 1) isRL (some m) (by omega) (by omega)
          (fun i hi hi' => hfail i (by omega) hi')
        refine ⟨fun hs => by rw [hred]; exact ihs.1 hs,
                fun hs => by rw [hred]; exact ihs.2.1 hs, fun hrg => ?_⟩
        constructor
        · rintro (hb | ⟨i, hi1, hi2, hi3⟩)
          · rw [hred]
            exact (ihs.2.2 hrg).1 (Or.inl hb)
          · have hia : i ≠ attempt := by
              intro hE
              rw [hE, hclsOf, hcls] at hi3
              simp at hi3
            rw [hred]
            exact (ihs.2.2 hrg).1 (Or.inr ⟨i, by omega, hi2, hi3⟩)
        · rintro ⟨hb, hnone⟩
          rw [hred]
          exact (ihs.2.2 hrg).2 ⟨hb, fun i hi hi' => hnone i (by omega) hi'⟩
      · have hlast : attempt = mr - 1 := by omega
        have hr0 : r = 0 := by omega
        have hred : (genLoop u mr (r + 1) attempt isRL le).result =
            (genLoop u mr r (attempt + 1) isRL (some m)).result := by
          simp only [genLoop, hca, hcls, if_neg hstop]
        have hfinal : errClassOf (u (mr - 1)) = some .generic := by
          rw [← hlast, hclsOf, hcls]
        refine ⟨fun hs => absurd (hfinal.symm.trans hs) (by simp),
                fun hs => absurd (hfinal.symm.trans hs) (by simp),
                fun _ => ?_⟩
        constructor
        · rintro (hb | ⟨i, hi1, hi2, hi3⟩)
          · rw [hred, hr0, hb]
            rfl
          · have : i = attempt := by omega
            rw [this, hclsOf, hcls] at hi3
            simp at hi3
        · rintro ⟨hb, -⟩
          rw [hred, hr0, hb, ← hlast, hmsgOf]
          rfl

/-- **C10 (amended).**  When every attempt fails and none fails with
401/400 (so the budget is exhausted), the final message is decided by the
class of the *last* attempt's failure: a last-attempt HTTP ≥ 500 failure
raises the "temporarily unavailable" message and a last-attempt network
failure raises the network message, in both cases even if an earlier
attempt was rate-limited; only when the last attempt failed with 429 or
with an unclassified (generic) error does the run reach the
`isRateLimited` fall-through, where any 429 among the attempts yields the
"high demand" message and otherwise the generic "Unable to generate
content" message carrying the last error's text is raised. -/
theorem C10_exhaustion_message (u : Nat → Attempt) (mr : Nat)
    (h0 : 0 < mr)
    (hfail : ∀ i < mr, errClassOf (u i) ≠ none ∧
      errClassOf (u i) ≠ some .auth ∧ errClassOf (u i) ≠ some .invalid) :
    (errClassOf (u (mr - 1)) = some .server →
        (generateContent u mr).result = .error serverUnavailableMsg) ∧
    (errClassOf (u (mr - 1)) = some .network →
        (generateContent u mr).result = .error networkErrorMsg) ∧
    ((errClassOf (u (mr - 1)) = some .rate ∨
        errClassOf (u (mr - 1)) = some .generic) →
      ((∃ i, i < mr ∧ errClassOf (u i) = some .rate) →
         (generateContent u mr).result = .error highDemandMsg) ∧
      ((∀ i, i < mr → errClassOf (u i) ≠ some .rate) →
         (generateContent u mr).result =
           .error (genericFailureMsg (errMsgOf (u (mr - 1)))))) := by
  have h := genLoop_exhaust u mr mr 0 false none (by omega) h0
    (fun i _ hi => hfail i hi)
  refine ⟨h.1, h.2.1, fun hrg => ?_⟩
  have h3 := h.2.2 hrg
  constructor
  · rintro ⟨i, hi, hir⟩
    exact h3.1 (Or.inr ⟨i, by omega, hi, hir⟩)
  · intro hnone
    exact h3.2 ⟨rfl, fun i _ hi => hnone i hi⟩

/-- Witness for the amended C10: one 429 then two unclassified failures
with budget 3: the last attempt is generic, an attempt was rate-limited,
and the run indeed raises the high-demand message. -/
theorem C10_witness :
    (0 < 3) ∧
    (generateContent
        (fun i => if i = 0 then .thrown (some 429) "Rate limit exceeded"
                  else .thrown none "boom") 3).result =
      .error highDemandMsg := by
  refine ⟨by decide, ?_⟩
  have h := C10_exhaustion_message
    (fun i => if i = 0 then .thrown (some 429) "Rate limit exceeded"
              else .thrown none "boom") 3 (by decide) (by decide)
  exact (h.2.2 (Or.inr (by decide))).1 ⟨0, by decide, by decide⟩

/-! ## Client request layer (`ChatClient.sendMessage`,
`src/client/api/chatClient.ts`)

`maxRetries = 2` is a private field of `ChatClient`; `sendMessage` calls
itself with `retryCount + 1` while `retryCount < maxRetries`.  As for the
generator, the guard is represented by `budget = maxRetries - retryCount`,
so the recursion is structural.  Non-`Error` throws (the final
"unexpected error" fallback) are outside the model; every thrown value
carries a `name` and a `message` as `fetch` rejections do. -/

/-- What one `fetch` attempt yields: an HTTP response (`ok` body, or an
error status with the optional server-supplied `error` text), or a thrown
error with its `name` and `message`. -/
inductive FetchOutcome
  | httpOk (body : String)
  | httpErr (status : Nat) (errText : Option String)
  | thrown (nm msg : String)
deriving DecidableEq, Repr

/-- Result of a `sendMessage` run: response body or terminal error
message, the backoff delays in ms, and the number of fetch attempts. -/
structure SendResult where
  result : Except String String
  delays : List Nat
  attempts : Nat
deriving DecidableEq, Repr

def clientRateLimitMsg : String :=
  "The service is experiencing high demand. Please wait a moment and try again."

def clientTimeout408Msg : String :=
  "Request timed out. The response took longer than expected. Please try again."

def clientUnavailableMsg : String :=
  "The service is temporarily unavailable. Please try again in a moment."

def clientAbortMsg : String :=
  "Request timed out after 30 seconds. Please try again with a simpler request."

def clientNetworkMsg : String :=
  "Network error. Please check your internet connection and try again."

/-- `errorData.error || Server error (${response.status})`. -/
def clientErrorMessage (status : Nat) (errText : Option String) : String :=
  match errText with
  | some t => if t = "" then "Server error (" ++ toString status ++ ")" else t
  | none => "Server error (" ++ toString status ++ ")"

/-- The body of `ChatClient.sendMessage`, with `budget =
maxRetries - retryCount` standing for the guard
`retryCount < this.maxRetries`. -/
def sendMessageLoop (server : Nat → FetchOutcome) (maxRetries : Nat) :
    (budget retryCount : Nat) → SendResult
  | budget, retryCount =>
    match server retryCount with
    | .httpOk body => ⟨.ok body, [], 1⟩
    | .httpErr status errText =>
      if status = 429 then ⟨.error clientRateLimitMsg, [], 1⟩
      else if status = 408 then ⟨.error clientTimeout408Msg, [], 1⟩
      else if 500 ≤ status then
        match budget with
        | b + 1 =>
          let r := sendMessageLoop server maxRetries b (retryCount + 1)
          ⟨r.result, 1000 * (retryCount + 1) :: r.delays, r.attempts + 1⟩
        | 0 => ⟨.error clientUnavailableMsg, [], 1⟩
      else ⟨.error (clientErrorMessage status errText), [], 1⟩
    | .thrown nm msg =>
      if nm = "AbortError" then ⟨.error clientAbortMsg, [], 1⟩
      else if jsIncludes msg.data "fetch".data ||
          jsIncludes msg.data "Failed to fetch".data then
        match budget with
        | b + 1 =>
          let r := sendMessageLoop server maxRetries b (retryCount + 1)
          ⟨r.result, 1000 * (retryCount + 1) :: r.delays, r.attempts + 1⟩
        | 0 => ⟨.error clientNetworkMsg, [], 1⟩
      else ⟨.error msg, [], 1⟩

/-- `sendMessage(request)`: `retryCount` starts at 0, the retry budget is
the field `maxRetries = 2`. -/
def sendMessage (server : Nat → FetchOutcome) : SendResult :=
  sendMessageLoop server 2 2 0

example :
    sendMessage (fun _ => .httpErr 500 none) =
      ⟨.error clientUnavailableMsg, [1000, 2000], 3⟩ := by
  decide

/-- `true` iff an attempt came back as an HTTP response with status ≥ 500. -/
def isServer5xx : FetchOutcome → Bool
  | .httpErr s _ => decide (500 ≤ s)
  | _ => false

theorem isServer5xx_elim {a : FetchOutcome} (h : isServer5xx a = true) :
    ∃ s t, a = .httpErr s t ∧ 500 ≤ s := by
  cases a with
  | httpErr s t => exact ⟨s, t, rfl, by simpa [isServer5xx] using h⟩
  | httpOk body => simp [isServer5xx] at h
  | thrown nm msg => simp [isServer5xx] at h

theorem sendMessageLoop_5xx_step (server : Nat → FetchOutcome)
    (mr b rc s : Nat) (t : Option String)
    (hs : server rc = .httpErr s t) (h5 : 500 ≤ s) :
    sendMessageLoop server mr (b + 1) rc =
      ⟨(sendMessageLoop server mr b (rc + 1)).result,
        1000 * (rc + 1) :: (sendMessageLoop server mr b (rc + 1)).delays,
        (sendMessageLoop server mr b (rc + 1)).attempts + 1⟩ := by
  have h429 : ¬ s = 429 := by omega
  have h408 : ¬ s = 408 := by omega
  simp only [sendMessageLoop, hs]
  rw [if_neg h429, if_neg h408, if_pos h5]

theorem sendMessageLoop_5xx_exhaust (server : Nat → FetchOutcome)
    (mr rc s : Nat) (t : Option String)
    (hs : server rc = .httpErr s t) (h5 : 500 ≤ s) :
    sendMessageLoop server mr 0 rc = ⟨.error clientUnavailableMsg, [], 1⟩ := by
  have h429 : ¬ s = 429 := by omega
  have h408 : ¬ s = 408 := by omega
  simp only [sendMessageLoop, hs]
  rw [if_neg h429, if_neg h408, if_pos h5]

/-- **C9.**  If the server answers every attempt with an HTTP status
≥ 500, `sendMessage` makes exactly 3 attempts (the initial one plus
`maxRetries = 2` retries), waits `1000 * (retryCount + 1)` ms before each
retry — 1000 ms, then 2000 ms — and then fails with the terminal
"temporarily unavailable" message. -/
theorem C9_client_5xx_retry_budget (server : Nat → FetchOutcome)
    (h5xx : ∀ i, i < 3 → isServer5xx (server i) = true) :
    sendMessage server = ⟨.error clientUnavailableMsg, [1000, 2000], 3⟩ := by
  obtain ⟨s0, t0, hs0, h50⟩ := isServer5xx_elim (h5xx 0 (by omega))
  obtain ⟨s1, t1, hs1, h51⟩ := isServer5xx_elim (h5xx 1 (by omega))
  obtain ⟨s2, t2, hs2, h52⟩ := isServer5xx_elim (h5xx 2 (by omega))
  rw [sendMessage,
    sendMessageLoop_5xx_step server 2 1 0 s0 t0 hs0 h50,
    sendMessageLoop_5xx_step server 2 0 1 s1 t1 hs1 h51,
    sendMessageLoop_5xx_exhaust server 2 2 s2 t2 hs2 h52]

/-- Witness for C9: a server that always answers 500. -/
theorem C9_witness :
    (∀ i, i < 3 → isServer5xx ((fun _ => FetchOutcome.httpErr 500 none) i) = true) ∧
    sendMessage (fun _ => FetchOutcome.httpErr 500 none) =
      ⟨.error clientUnavailableMsg, [1000, 2000], 3⟩ :=
  ⟨fun _ _ => (by decide : isServer5xx (FetchOutcome.httpErr 500 none) = true),
    C9_client_5xx_retry_budget (fun _ => FetchOutcome.httpErr 500 none)
      (fun _ _ =>
        (by decide : isServer5xx (FetchOutcome.httpErr 500 none) = true))⟩

/-! ## Brand-context store (`BrandContextStore`,
`src/server/brandContext.ts`)

A JavaScript object of type `BrandContext` / `Partial<BrandContext>` can,
for each of the four optional fields, either lack the property, have it
present with value `undefined`, or have it present with a string value.
The distinction between the first two matters for the object spread used
by `set` and `update`: spreading copies *present* properties, including
those whose value is `undefined`. -/

/-- One optional string-valued property of a JS object. -/
inductive JsStrField
  | absent
  | undef
  | val (s : String)
deriving DecidableEq, Repr

/-- What reading the property yields (`obj.field`): `undefined` for both
an absent and an explicitly-`undefined` property. -/
def JsStrField.read : JsStrField → Option String
  | .absent => none
  | .undef => none
  | .val s => some s

/-- A `BrandContext` (or `Partial<BrandContext>`) object. -/
structure BrandCtxObj where
  brandName : JsStrField
  brandVoice : JsStrField
  targetAudience : JsStrField
  industry : JsStrField
deriving DecidableEq, Repr

/-- The empty object literal `{}`. -/
def emptyCtx : BrandCtxObj := ⟨.absent, .absent, .absent, .absent⟩

/-- Property-wise effect of `{ ...e, ...p }`: a property present in `p`
(even with value `undefined`) overwrites; an absent one does not. -/
def spreadField (e p : JsStrField) : JsStrField :=
  match p with
  | .absent => e
  | .undef => .undef
  | .val s => .val s

/-- `{ ...e, ...p }` on `BrandContext` objects. -/
def spreadCtx (e p : BrandCtxObj) : BrandCtxObj :=
  ⟨spreadField e.brandName p.brandName,
   spreadField e.brandVoice p.brandVoice,
   spreadField e.targetAudience p.targetAudience,
   spreadField e.industry p.industry⟩

/-- The store's `Map<string, BrandContext>`, as an association list where
the most recent binding for a key comes first. -/
abbrev Store := List (String × BrandCtxObj)

/-- `Map.get`. -/
def storeGetRaw (st : Store) (k : String) : Option BrandCtxObj :=
  (st.find? (fun kv => kv.1 = k)).map (fun kv => kv.2)

/-- `set(sessionId, context)`: `this.contexts.set(sessionId, {...context})`.
The spread copy of a whole object is property-wise the identity. -/
def storeSet (st : Store) (k : String) (v : BrandCtxObj) : Store :=
  (k, spreadCtx emptyCtx v) :: st

/-- `get(sessionId)`: `context ? { ...context } : undefined` — objects are
always truthy, so a found record is returned as a spread copy. -/
def storeGet (st : Store) (k : String) : Option BrandCtxObj :=
  (storeGetRaw st k).map (fun v => spreadCtx emptyCtx v)

/-- `has(sessionId)`. -/
def storeHas (st : Store) (k : String) : Bool :=
  (storeGetRaw st k).isSome

/-- `update(sessionId, context)`:
`const existing = this.contexts.get(sessionId) || {};`
`this.contexts.set(sessionId, { ...existing, ...context });` -/
def storeUpdate (st : Store) (k : String) (p : BrandCtxObj) : Store :=
  ((k, spreadCtx ((storeGetRaw st k).getD emptyCtx) p) :: st : Store)

theorem spreadCtx_empty (v : BrandCtxObj) : spreadCtx emptyCtx v = v := by
  cases v with
  | mk a b c d =>
    simp only [spreadCtx, emptyCtx]
    cases a <;> cases b <;> cases c <;> cases d <;> rfl

theorem storeGetRaw_set (st : Store) (k : String) (v : BrandCtxObj) :
    storeGetRaw (storeSet st k v) k = some v := by
  simp [storeGetRaw, storeSet, List.find?_cons, spreadCtx_empty]

theorem storeGet_set (st : Store) (k : String) (v : BrandCtxObj) :
    storeGet (storeSet st k v) k = some v := by
  simp [storeGet, storeGetRaw_set, spreadCtx_empty]

theorem storeGetRaw_update (st : Store) (k : String) (p : BrandCtxObj) :
    storeGetRaw (storeUpdate st k p) k =
      some (spreadCtx ((storeGetRaw st k).getD emptyCtx) p) := by
  simp [storeGetRaw, storeUpdate, List.find?_cons]

theorem spreadField_eq (e p : JsStrField) :
    spreadField e p = if p = .absent then e else p := by
  cases p <;> rfl

/-- Counterexample to C8 as stated: with `{brandName: "X"}` stored under
`"s"`, calling `update("s", {brandName: undefined})` overwrites the field
— the object spread copies a property that is present with value
`undefined` — so the stored record afterwards reads `brandName` as
`undefined`, not `"X"` as the claim requires. -/
theorem C8_counterexample :
    storeGet (storeUpdate (storeSet ([] : Store) "s"
        ⟨.val "X", .absent, .absent, .absent⟩) "s"
        ⟨.undef, .absent, .absent, .absent⟩) "s" =
      some ⟨.undef, .absent, .absent, .absent⟩ ∧
    (JsStrField.read .undef ≠ some "X") := by
  constructor
  · decide
  · decide

/-- **C8 (amended).**  After `update(s, P)` the stored context maps each
field to `P`'s property when that property is *present* in `P` — including
a property explicitly set to `undefined`, which overwrites the existing
value with `undefined` — and to `E`'s value only when the property is
absent from `P`; if no record exists for `s`, the stored record equals
`P`. -/
theorem C8_update_shallow_merge (st : Store) (k : String) (P : BrandCtxObj) :
    (∀ E, storeGetRaw st k = some E →
      ∃ M, storeGet (storeUpdate st k P) k = some M ∧
        M.brandName =
          (if P.brandName = .absent then E.brandName else P.brandName) ∧
        M.brandVoice =
          (if P.brandVoice = .absent then E.brandVoice else P.brandVoice) ∧
        M.targetAudience =
          (if P.targetAudience = .absent then E.targetAudience
           else P.targetAudience) ∧
        M.industry =
          (if P.industry = .absent then E.industry else P.industry)) ∧
    (storeGetRaw st k = none → storeGet (storeUpdate st k P) k = some P) := by
  constructor
  · intro E hE
    refine ⟨spreadCtx E P, ?_, ?_, ?_, ?_, ?_⟩
    · rw [storeGet, storeGetRaw_update, hE]
      simp [spreadCtx_empty]
    · exact spreadField_eq E.brandName P.brandName
    · exact spreadField_eq E.brandVoice P.brandVoice
    · exact spreadField_eq E.targetAudience P.targetAudience
    · exact spreadField_eq E.industry P.industry
  · intro hE
    rw [storeGet, storeGetRaw_update, hE]
    simp [spreadCtx_empty]

/-- Witness for the amended C8: existing record
`{brandName: "X", brandVoice: "V"}`, partial
`{brandName: undefined, targetAudience: "A"}`: after the update the
stored record has `brandName` overwritten to `undefined`, `brandVoice`
kept, `targetAudience` set, `industry` still absent. -/
theorem C8_witness :
    storeGetRaw (storeSet ([] : Store) "s"
        ⟨.val "X", .val "V", .absent, .absent⟩) "s" =
      some ⟨.val "X", .val "V", .absent, .absent⟩ ∧
    ∃ M, storeGet (storeUpdate (storeSet ([] : Store) "s"
          ⟨.val "X", .val "V", .absent, .absent⟩) "s"
          ⟨.undef, .absent, .val "A", .absent⟩) "s" = some M ∧
      M.brandName = .undef ∧ M.brandVoice = .val "V" ∧
      M.targetAudience = .val "A" ∧ M.industry = .absent := by
  refine ⟨by decide, ?_⟩
  obtain ⟨M, hM, h1, h2, h3, h4⟩ :=
    (C8_update_shallow_merge
      (storeSet ([] : Store) "s" ⟨.val "X", .val "V", .absent, .absent⟩)
      "s" ⟨.undef, .absent, .val "A", .absent⟩).1
      ⟨.val "X", .val "V", .absent, .absent⟩ (by decide)
  refine ⟨M, hM, ?_, ?_, ?_, ?_⟩
  · rw [h1]; decide
  · rw [h2]; decide
  · rw [h3]; decide
  · rw [h4]; decide

/-! ## Chat endpoint (`app.post('/api/chat')`, `src/server/index.ts`) -/

/-- A history entry as the endpoint checks it: `role` is checked only for
truthiness (so it is modelled as a string, empty = falsy), `content` is
either a string or some non-string/absent value (`none`). -/
structure HistEntry where
  role : String
  content : Option String
deriving DecidableEq, Repr

/-- The request's `history` field: absent (`undefined`), present but not
an array, or an array of entries. -/
inductive HistField
  | absent
  | notArray
  | arr (entries : List HistEntry)
deriving DecidableEq, Repr

/-- The parsed body of a chat request.  `message = none` models an absent
or non-string `message`; `brandContext`/`sessionId` are `none` when the
field is absent. -/
structure ChatReq where
  message : Option (List Char)
  history : HistField
  brandContext : Option BrandCtxObj
  sessionId : Option String
deriving Repr

/-- JS truthiness of a possibly-absent string: `undefined` and `""` are
falsy, every other string is truthy. -/
def jsTruthyStr : Option String → Bool
  | none => false
  | some s => !(s == "")

def MAX_MESSAGE_LENGTH : Nat := 5000
def MAX_HISTORY_LENGTH : Nat := 50

def msgRequiredMsg : String :=
  "Invalid request: message is required and must be a string"

def msgEmptyMsg : String := "Invalid request: message cannot be empty"

def msgTooLongMsg : String :=
  "Invalid request: message exceeds maximum length of 5000 characters"

def histNotArrayMsg : String := "Invalid request: history must be an array"

def histTooLongMsg : String :=
  "Invalid request: history exceeds maximum length of 50 messages"

def histEntryMsg : String :=
  "Invalid request: history messages must have role and content"

/-- `!msg.role || !msg.content || typeof msg.content !== 'string'`: an
entry is rejected when its role is falsy, or its content is not a string
(`none`), or its content is the empty (falsy) string. -/
def histEntryInvalid (e : HistEntry) : Bool :=
  (e.role == "") ||
    (match e.content with
     | none => true
     | some c => c == "")

/-- What a validated request hands to generation, plus the session-id and
store effects of brand-context resolution. -/
structure ChatOk where
  genMessage : List Char
  genHistory : List HistEntry
  genContext : Option BrandCtxObj
  effectiveSessionId : Option String
  store : Store
deriving DecidableEq, Repr

/-- Brand-context resolution (the four truthiness-guarded branches of the
handler).  `freshId` stands for the generated
`session_${Date.now()}_${random}` identifier. -/
def resolveBrandContext (st : Store) (brandContext : Option BrandCtxObj)
    (sessionId : Option String) (freshId : String) :
    Option BrandCtxObj × Option String × Store :=
  if brandContext.isSome && jsTruthyStr sessionId then
    (brandContext, sessionId,
      storeSet st (sessionId.getD "") (brandContext.getD emptyCtx))
  else if !brandContext.isSome && jsTruthyStr sessionId &&
      storeHas st (sessionId.getD "") then
    (storeGet st (sessionId.getD ""), sessionId, st)
  else if brandContext.isSome && !jsTruthyStr sessionId then
    (brandContext, some freshId, storeSet st freshId (brandContext.getD emptyCtx))
  else
    (brandContext, sessionId, st)

/-- The `/api/chat` handler up to the invocation of `generateContent`:
the validation chain in source order, then brand-context resolution.
`Except.error e` is a 400 response with error text `e`; generation is
invoked exactly on `Except.ok`, with `genMessage`, `genHistory`
(`history || []`) and `genContext` as its arguments. -/
def handleChat (st : Store) (freshId : String) (r : ChatReq) :
    Except String ChatOk :=
  match r.message with
  | none => .error msgRequiredMsg
  | some m =>
    let sanitizedMessage := sanitizeInput m
    if sanitizedMessage.length = 0 then .error msgEmptyMsg
    else if sanitizedMessage.length > MAX_MESSAGE_LENGTH then
      .error msgTooLongMsg
    else
      match r.history with
      | .notArray => .error histNotArrayMsg
      | .arr l =>
        if l.length > MAX_HISTORY_LENGTH then .error histTooLongMsg
        else if l.any histEntryInvalid then .error histEntryMsg
        else
          match resolveBrandContext st r.brandContext r.sessionId freshId with
          | (ctx, sid, st') => .ok ⟨sanitizedMessage, l, ctx, sid, st'⟩
      | .absent =>
        match resolveBrandContext st r.brandContext r.sessionId freshId with
        | (ctx, sid, st') => .ok ⟨sanitizedMessage, [], ctx, sid, st'⟩

example :
    handleChat ([] : Store) "f" ⟨some "  hi   there ".data, .absent, none, none⟩ =
      .ok ⟨"hi there".data, [], none, none, []⟩ := by decide

example :
    handleChat ([] : Store) "f" ⟨some "   ".data, .absent, none, none⟩ =
      .error msgEmptyMsg := by decide

/-! ### Claim C5: the 5000-character limit -/

theorem trimEnd_eq_self_of_nonWs {w : List Char}
    (hw : ∀ c ∈ w, isJsWhitespace c = false) : trimEnd w = w := by
  unfold trimEnd
  cases hr : w.reverse with
  | nil => simp [List.reverse_eq_nil_iff.mp hr]
  | cons c t =>
    have hc : c ∈ w := List.mem_reverse.mp (hr ▸ List.mem_cons_self c t)
    rw [List.dropWhile_cons_of_neg (by simp [hw c hc]), ← hr,
      List.reverse_reverse]

/-- A string of non-whitespace, non-null characters is untouched by
sanitization. -/
theorem sanitizeInput_eq_self_of_plain {l : List Char}
    (h1 : ∀ c ∈ l, isJsWhitespace c = false)
    (h2 : ∀ c ∈ l, c ≠ nullChar) : sanitizeInput l = l := by
  unfold sanitizeInput collapseWs jsTrim trimStart
  rw [replaceNullChars_eq_self h2, trimEnd_eq_self_of_nonWs h1]
  have hd : l.dropWhile isJsWhitespace = l := by
    cases l with
    | nil => rfl
    | cons c t =>
      exact List.dropWhile_cons_of_neg (by simp [h1 c (List.mem_cons_self c t)])
  rw [hd]
  exact collapseAux_eq_self h1 false

/-- Checks 4–6 of the validation order, as the source performs them. -/
def historyChecksPass : HistField → Bool
  | .absent => true
  | .notArray => false
  | .arr l => decide (l.length ≤ MAX_HISTORY_LENGTH) && !(l.any histEntryInvalid)

/-- **C5.**  If the sanitized message is strictly longer than 5000
characters the endpoint answers 400 with an error mentioning
"exceeds maximum length" and never invokes generation (no `Except.ok` is
produced); a sanitized message of exactly 5000 characters passes the
length check, and when the remaining checks pass too the request is
accepted. -/
theorem C5_message_length_limit (st : Store) (freshId : String) (r : ChatReq)
    (m : List Char) (hm : r.message = some m) :
    ((sanitizeInput m).length > 5000 →
      handleChat st freshId r = .error msgTooLongMsg ∧
      "exceeds maximum length".data <:+: msgTooLongMsg.data) ∧
    ((sanitizeInput m).length = 5000 → historyChecksPass r.history = true →
      ∃ ok, handleChat st freshId r = .ok ok ∧
        ok.genMessage = sanitizeInput m) := by
  constructor
  · intro hlong
    constructor
    · simp only [handleChat, hm]
      rw [if_neg (by omega), if_pos (by simpa [MAX_MESSAGE_LENGTH] using hlong)]
    · exact ⟨"Invalid request: message ".data, " of 5000 characters".data,
        by decide⟩
  · intro hlen hpass
    cases hh : r.history with
    | notArray =>
      rw [hh] at hpass
      simp [historyChecksPass] at hpass
    | absent =>
      refine ⟨⟨sanitizeInput m, [],
        (resolveBrandContext st r.brandContext r.sessionId freshId).1,
        (resolveBrandContext st r.brandContext r.sessionId freshId).2.1,
        (resolveBrandContext st r.brandContext r.sessionId freshId).2.2⟩,
        ?_, rfl⟩
      simp only [handleChat, hm, hh]
      rw [if_neg (by omega), if_neg (by simp only [MAX_MESSAGE_LENGTH]; omega)]
    | arr l =>
      rw [hh] at hpass
      simp only [historyChecksPass, Bool.and_eq_true, decide_eq_true_eq,
        Bool.not_eq_true'] at hpass
      refine ⟨⟨sanitizeInput m, l,
        (resolveBrandContext st r.brandContext r.sessionId freshId).1,
        (resolveBrandContext st r.brandContext r.sessionId freshId).2.1,
        (resolveBrandContext st r.brandContext r.sessionId freshId).2.2⟩,
        ?_, rfl⟩
      simp only [handleChat, hm, hh]
      have hp1 := hpass.1
      rw [if_neg (by omega), if_neg (by simp only [MAX_MESSAGE_LENGTH]; omega),
        if_neg (by omega), if_neg (by simp [hpass.2])]

/-- Witness for C5: a 5001-`'a'` message is rejected with the
"exceeds maximum length" error; a 5000-`'a'` message is accepted. -/
theorem C5_witness :
    (sanitizeInput (List.replicate 5001 'a')).length > 5000 ∧
    handleChat ([] : Store) "f"
        ⟨some (List.replicate 5001 'a'), .absent, none, none⟩ =
      .error msgTooLongMsg ∧
    (sanitizeInput (List.replicate 5000 'a')).length = 5000 ∧
    ∃ ok, handleChat ([] : Store) "f"
        ⟨some (List.replicate 5000 'a'), .absent, none, none⟩ = .ok ok ∧
      ok.genMessage = sanitizeInput (List.replicate 5000 'a') := by
  have hplain : ∀ n, sanitizeInput (List.replicate n 'a') = List.replicate n 'a' := by
    intro n
    refine sanitizeInput_eq_self_of_plain ?_ ?_ <;>
      · intro c hc
        rw [List.eq_of_mem_replicate hc]
        decide
  have hlen1 : (sanitizeInput (List.replicate 5001 'a')).length > 5000 := by
    rw [hplain, List.length_replicate]
    omega
  have hlen2 : (sanitizeInput (List.replicate 5000 'a')).length = 5000 := by
    rw [hplain, List.length_replicate]
  refine ⟨hlen1, ?_, hlen2, ?_⟩
  · exact ((C5_message_length_limit ([] : Store) "f"
      ⟨some (List.replicate 5001 'a'), .absent, none, none⟩
      (List.replicate 5001 'a') rfl).1 hlen1).1
  · exact (C5_message_length_limit ([] : Store) "f"
      ⟨some (List.replicate 5000 'a'), .absent, none, none⟩
      (List.replicate 5000 'a') rfl).2 hlen2 (by decide)

/-! ### Claim C6: history-entry validation -/

/-- Counterexample to C6 as stated: a history entry with non-empty role
`"user"` and the *empty string* as content passes neither `!msg.content`
(the empty string is falsy) — the claim says such an entry is accepted,
but the endpoint answers 400 with the history-entry error. -/
theorem C6_counterexample :
    handleChat ([] : Store) "f"
        ⟨some "hi".data, .arr [⟨"user", some ""⟩], none, none⟩ =
      .error histEntryMsg := by
  decide

/-- **C6 (amended).**  For a request that passes checks 1–5, the endpoint
accepts the history exactly when every entry has a non-empty `role` and a
*non-empty* string `content`; an entry whose role is empty, whose content
is not a string, or whose content is the empty string is rejected with
the 400 error naming role and content.  (The claim's parenthetical is
wrong: empty-string content is falsy and rejected.) -/
theorem C6_history_entry_validation (st : Store) (freshId : String)
    (r : ChatReq) (m : List Char) (l : List HistEntry)
    (hm : r.message = some m)
    (hne : (sanitizeInput m).length ≠ 0)
    (hlen : (sanitizeInput m).length ≤ 5000)
    (hh : r.history = .arr l)
    (hhl : l.length ≤ 50) :
    ((∀ e ∈ l, e.role ≠ "" ∧ ∃ c, e.content = some c ∧ c ≠ "") →
      ∃ ok, handleChat st freshId r = .ok ok ∧ ok.genHistory = l) ∧
    ((∃ e ∈ l, e.role = "" ∨ e.content = none ∨ e.content = some "") →
      handleChat st freshId r = .error histEntryMsg) := by
  have hlen' : (sanitizeInput m).length ≤ MAX_MESSAGE_LENGTH := hlen
  have hhl' : l.length ≤ MAX_HISTORY_LENGTH := hhl
  constructor
  · intro hvalid
    have hnone : l.any histEntryInvalid = false := by
      rw [List.any_eq_false]
      intro e he
      obtain ⟨hrole, c, hc, hcne⟩ := hvalid e he
      simp [histEntryInvalid, hrole, hc, hcne]
    refine ⟨⟨sanitizeInput m, l,
      (resolveBrandContext st r.brandContext r.sessionId freshId).1,
      (resolveBrandContext st r.brandContext r.sessionId freshId).2.1,
      (resolveBrandContext st r.brandContext r.sessionId freshId).2.2⟩,
      ?_, rfl⟩
    simp only [handleChat, hm, hh]
    rw [if_neg (by omega), if_neg (by simp only [MAX_MESSAGE_LENGTH]; omega),
      if_neg (by omega), if_neg (by simp [hnone])]
  · intro hbad
    have hsome : l.any histEntryInvalid = true := by
      rw [List.any_eq_true]
      obtain ⟨e, he, hcase⟩ := hbad
      refine ⟨e, he, ?_⟩
      rcases hcase with hrole | hcnone | hcempty
      · simp [histEntryInvalid, hrole]
      · simp [histEntryInvalid, hcnone]
      · simp [histEntryInvalid, hcempty]
    simp only [handleChat, hm, hh]
    rw [if_neg (by omega), if_neg (by simp only [MAX_MESSAGE_LENGTH]; omega),
      if_neg (by omega), if_pos (by simp [hsome])]

/-- Witness for the amended C6: a single valid entry (non-empty role and
content) is accepted and passed to generation. -/
theorem C6_witness :
    ∃ ok, handleChat ([] : Store) "f"
        ⟨some "hi".data, .arr [⟨"user", some "hello"⟩], none, none⟩ =
      .ok ok ∧ ok.genHistory = [⟨"user", some "hello"⟩] := by
  refine (C6_history_entry_validation ([] : Store) "f"
    ⟨some "hi".data, .arr [⟨"user", some "hello"⟩], none, none⟩
    "hi".data [⟨"user", some "hello"⟩] rfl (by decide) (by decide) rfl
    (by decide)).1 ?_
  intro e he
  rw [List.mem_singleton] at he
  subst he
  exact ⟨by decide, "hello", rfl, by decide⟩

/-! ### Claim C7: the empty-object brand context -/

/-- Counterexample to C7 as stated: with `{brandName: "X"}` stored under
session `"sess1"`, a request carrying `brandContext: {}` and that session
id does *not* keep the stored context: `{}` is a truthy object, so the
first branch stores `{}` over the existing record and passes `{}` to
generation. -/
theorem C7_counterexample :
    ((handleChat (storeSet ([] : Store) "sess1"
          ⟨.val "X", .absent, .absent, .absent⟩) "fresh"
        ⟨some "hi".data, .absent, some emptyCtx, some "sess1"⟩).map
      (fun ok => (ok.genContext, storeGet ok.store "sess1"))) =
      .ok (some emptyCtx, some emptyCtx) ∧
    emptyCtx ≠ (⟨.val "X", .absent, .absent, .absent⟩ : BrandCtxObj) := by
  constructor
  · decide
  · decide

/-- **C7 (amended).**  An explicitly provided empty-object brand context
`{}` is a truthy value, so the endpoint treats it as a *provided*
context: with a truthy `sessionId` it is stored (overwriting any stored
record for that session) and used as the effective context; without a
`sessionId` a fresh session id is synthesized and `{}` is stored under
it. -/
theorem C7_empty_context_is_provided (st : Store) (s freshId : String)
    (hs : s ≠ "") :
    resolveBrandContext st (some emptyCtx) (some s) freshId =
      (some emptyCtx, some s, storeSet st s emptyCtx) ∧
    storeGet (storeSet st s emptyCtx) s = some emptyCtx ∧
    resolveBrandContext st (some emptyCtx) none freshId =
      (some emptyCtx, some freshId, storeSet st freshId emptyCtx) := by
  refine ⟨?_, storeGet_set st s emptyCtx, ?_⟩
  · unfold resolveBrandContext
    rw [if_pos (by simp [jsTruthyStr, hs])]
    rfl
  · unfold resolveBrandContext
    rw [if_neg (by simp [jsTruthyStr]), if_neg (by simp [jsTruthyStr]),
      if_pos (by simp [jsTruthyStr])]
    rfl

/-- Witness for the amended C7: with `{brandName: "X"}` stored under
`"sess1"`, resolving a request carrying `{}` and that session id yields
`{}` as effective context and overwrites the store. -/
theorem C7_witness :
    ("sess1" ≠ "") ∧
    resolveBrandContext (storeSet ([] : Store) "sess1"
        ⟨.val "X", .absent, .absent, .absent⟩) (some emptyCtx)
        (some "sess1") "fresh" =
      (some emptyCtx, some "sess1",
        storeSet (storeSet ([] : Store) "sess1"
          ⟨.val "X", .absent, .absent, .absent⟩) "sess1" emptyCtx) :=
  ⟨by decide,
    (C7_empty_context_is_provided
      (storeSet ([] : Store) "sess1" ⟨.val "X", .absent, .absent, .absent⟩)
      "sess1" "fresh" (by decide)).1⟩

/-! ### Claim C3: brand-context persistence across requests -/

/-- An accepted request's effective context, session id and store are
exactly what brand-context resolution produced. -/
theorem handleChat_ok_resolve {st : Store} {f : String} {r : ChatReq}
    {ok : ChatOk} (h : handleChat st f r = .ok ok) :
    (ok.genContext, ok.effectiveSessionId, ok.store) =
      resolveBrandContext st r.brandContext r.sessionId f := by
  cases hm : r.message with
  | none =>
    simp only [handleChat, hm] at h
    exact absurd h (by simp)
  | some m =>
    simp only [handleChat, hm] at h
    by_cases h0 : (sanitizeInput m).length = 0
    · rw [if_pos h0] at h
      exact absurd h (by simp)
    · rw [if_neg h0] at h
      by_cases h5 : (sanitizeInput m).length > MAX_MESSAGE_LENGTH
      · rw [if_pos h5] at h
        exact absurd h (by simp)
      · rw [if_neg h5] at h
        cases hh : r.history with
        | notArray =>
          simp only [hh] at h
          exact absurd h (by simp)
        | absent =>
          simp only [hh] at h
          injection h with h'
          subst h'
          rfl
        | arr l =>
          simp only [hh] at h
          by_cases hl : l.length > MAX_HISTORY_LENGTH
          · rw [if_pos hl] at h
            exact absurd h (by simp)
          · rw [if_neg hl] at h
            by_cases hinv : l.any histEntryInvalid
            · rw [if_pos hinv] at h
              exact absurd h (by simp)
            · rw [if_neg hinv] at h
              injection h with h'
              subst h'
              rfl

/-- Counterexample to C3 as stated, at the session id `""`: the empty
string is falsy in JavaScript, so a first request carrying a brand
context and `sessionId: ""` takes the no-session branch (the context is
stored under a *freshly generated* id instead), and the second request
with `sessionId: ""` and no context resolves to *no* effective context
rather than the stored payload. -/
theorem C3_counterexample :
    (match handleChat ([] : Store) "gen1"
        ⟨some "hi".data, .absent,
          some ⟨.val "X", .absent, .absent, .absent⟩, some ""⟩ with
     | .ok ok1 =>
       match handleChat ok1.store "gen2"
           ⟨some "yo".data, .absent, none, some ""⟩ with
       | .ok ok2 => some (ok2.genContext)
       | .error _ => none
     | .error _ => none) = some none ∧
    (none : Option BrandCtxObj) ≠
      some ⟨.val "X", .absent, .absent, .absent⟩ := by
  constructor
  · decide
  · decide

/-- **C3 (amended).**  For every *non-empty* session id `s` (the empty
string is falsy and takes a different branch — see the counterexample)
and brand context `C`: if a first accepted chat request carries
`brandContext C` and `sessionId s`, then a second accepted request with
`sessionId s` and no brand context resolves its effective context to the
stored `C`, which is what it passes to the content generator. -/
theorem C3_session_context_roundtrip (st : Store) (f1 f2 s : String)
    (hs : s ≠ "") (C : BrandCtxObj) (m1 m2 : List Char)
    (h1 h2 : HistField) (ok1 ok2 : ChatOk)
    (hreq1 : handleChat st f1 ⟨some m1, h1, some C, some s⟩ = .ok ok1)
    (hreq2 : handleChat ok1.store f2 ⟨some m2, h2, none, some s⟩ = .ok ok2) :
    ok2.genContext = some C := by
  have e1 : (ok1.genContext, ok1.effectiveSessionId, ok1.store) =
      resolveBrandContext st (some C) (some s) f1 :=
    handleChat_ok_resolve hreq1
  have hr1 : resolveBrandContext st (some C) (some s) f1 =
      (some C, some s, storeSet st s C) := by
    unfold resolveBrandContext
    rw [if_pos (by simp [jsTruthyStr, hs])]
    rfl
  rw [hr1] at e1
  have hstore1 : ok1.store = storeSet st s C := congrArg (fun p => p.2.2) e1
  have e2 : (ok2.genContext, ok2.effectiveSessionId, ok2.store) =
      resolveBrandContext ok1.store none (some s) f2 :=
    handleChat_ok_resolve hreq2
  rw [hstore1] at e2
  have hcond : (!(none : Option BrandCtxObj).isSome && jsTruthyStr (some s) &&
      storeHas (storeSet st s C) ((some s).getD "")) = true := by
    simp [jsTruthyStr, hs, storeHas, storeGetRaw_set]
  have hr2 : resolveBrandContext (storeSet st s C) none (some s) f2 =
      (storeGet (storeSet st s C) s, some s, storeSet st s C) := by
    unfold resolveBrandContext
    rw [if_neg (by simp), if_pos hcond]
    rfl
  rw [hr2, storeGet_set] at e2
  exact congrArg (fun p => p.1) e2

/-- Witness for the amended C3: session `"sess"`, context
`{brandName: "X"}`; the second request's effective context is the stored
payload. -/
theorem C3_witness :
    ("sess" ≠ "") ∧
    ∃ ok1 ok2,
      handleChat ([] : Store) "g1"
          ⟨some "hi".data, .absent,
            some ⟨.val "X", .absent, .absent, .absent⟩, some "sess"⟩ =
        .ok ok1 ∧
      handleChat ok1.store "g2"
          ⟨some "yo".data, .absent, none, some "sess"⟩ = .ok ok2 ∧
      ok2.genContext = some ⟨.val "X", .absent, .absent, .absent⟩ := by
  refine ⟨by decide, ?_⟩
  have hreq1 : handleChat ([] : Store) "g1"
      ⟨some "hi".data, .absent,
        some ⟨.val "X", .absent, .absent, .absent⟩, some "sess"⟩ =
      .ok ⟨"hi".data, [], some ⟨.val "X", .absent, .absent, .absent⟩,
        some "sess", [("sess", ⟨.val "X", .absent, .absent, .absent⟩)]⟩ := by
    decide
  have hreq2 : handleChat
      ([("sess", (⟨.val "X", .absent, .absent, .absent⟩ : BrandCtxObj))] : Store)
      "g2" ⟨some "yo".data, .absent, none, some "sess"⟩ =
      .ok ⟨"yo".data, [], some ⟨.val "X", .absent, .absent, .absent⟩,
        some "sess", [("sess", ⟨.val "X", .absent, .absent, .absent⟩)]⟩ := by
    decide
  exact ⟨_, _, hreq1, hreq2,
    C3_session_context_roundtrip ([] : Store) "g1" "g2" "sess" (by decide)
      ⟨.val "X", .absent, .absent, .absent⟩ "hi".data "yo".data
      .absent .absent _ _ hreq1 hreq2⟩

end MarketingMavericks
